import Mathlib

/-!
Verification of the deterministic NDC quantity-calculation core.

This file gives a shallow embedding, in Lean 4, of the pure computation
pipeline of the ndc-quantity-calculator repository:

* `SigParser` — `src/features/calculator/utils/sigParser.ts`
* `QuantityMath` — the later revision of
  `src/features/calculator/utils/quantityMath.ts` (with dosage-form handling)
* `QuantityMathV1` — the earlier revision of the same module (without
  dosage-form handling)
* `NdcSelect` — the deterministic NDC scoring/ranking service
* `FdaNdc` — the NDC-normalization part of the FDA package-search service

Modelling conventions:

* JavaScript `number` is modelled by `JsNum` (an exact rational plus the
  non-finite values `NaN`, `Infinity`, `-Infinity`) where non-finite values
  can reach a guard, and by `ℚ` where the surrounding code guarantees a
  finite value.  Floating-point rounding error is not modelled; all
  arithmetic is exact.
* JavaScript strings are Lean `String`s; the handful of regular expressions
  used by the source are embedded as hand-written scanners that implement
  the exact first-match/backtracking behaviour of each concrete pattern.
* `undefined`/`null` are modelled by `Option`.
* Warning `message`/`details` fields are display-layer string formatting
  (`toFixed` etc.) and are not modelled; a `Warning` here carries its
  `type`, `severity` and `field`.
-/

/-! ## Generic string and list helpers (JS string primitives) -/

/-- ASCII word character, JS regex `\w` = `[A-Za-z0-9_]`. -/
def isWordChar (c : Char) : Bool :=
  c.isAlphanum || c = '_'

/-- Whitespace test used for JS `\s` and `trim`. -/
def isWs (c : Char) : Bool :=
  c.isWhitespace

/-- JS `String.prototype.trim` on a character list: drop whitespace at both ends. -/
def trimL (cs : List Char) : List Char :=
  ((cs.dropWhile isWs).reverse.dropWhile isWs).reverse

/-- JS `String.prototype.toLowerCase` (ASCII; the source only feeds it ASCII data). -/
def lowerL (cs : List Char) : List Char :=
  cs.map Char.toLower

/-- `s.toLowerCase().trim()` as used by every `normalizeUnit` in the source. -/
def lowerTrim (s : String) : String :=
  String.mk (trimL (lowerL s.data))

/-- `s.toLowerCase()` on strings. -/
def jsToLower (s : String) : String :=
  String.mk (lowerL s.data)

/-- `s.trim()` on strings. -/
def jsTrim (s : String) : String :=
  String.mk (trimL s.data)

/-- `pat` occurs as a prefix of `cs`; returns the rest after the occurrence. -/
def dropPre : List Char → List Char → Option (List Char)
  | [], cs => some cs
  | _ :: _, [] => none
  | p :: ps, c :: cs => if c = p then dropPre ps cs else none

/-- JS `String.prototype.includes pat` on character lists. -/
def containsSub (cs pat : List Char) : Bool :=
  match cs with
  | [] => (dropPre pat []).isSome
  | _ :: t => (dropPre pat cs).isSome || containsSub t pat

/-- Substring containment on strings (`lowerSig.includes(pattern)`). -/
def strIncludes (s pat : String) : Bool :=
  containsSub s.data pat.data

/-- First-match lookup in an association list of strings, in insertion order
(models property access on a TS `Record<string, T>` literal). -/
def lookupStr {α : Type} : List (String × α) → String → Option α
  | [], _ => none
  | (k, v) :: t, s => if s = k then some v else lookupStr t s

/-- Numeric value of a digit run (`Number.parseInt(digits, 10)`). -/
def digitsToNat (cs : List Char) : ℕ :=
  cs.foldl (fun n c => 10 * n + (c.toNat - '0'.toNat)) 0

/-- Exact value of `Number.parseFloat` on a matched `\d+(\.\d+)?` token. -/
def parseDec (cs : List Char) : ℚ :=
  let ds := cs.takeWhile Char.isDigit
  match cs.dropWhile Char.isDigit with
  | '.' :: fs => (digitsToNat ds : ℚ) + (digitsToNat fs : ℚ) / (10 ^ fs.length : ℚ)
  | _ => (digitsToNat ds : ℚ)

/-! ## JavaScript numbers -/

/-- A JavaScript `number`: an exact rational, or one of the non-finite values. -/
inductive JsNum where
  | nan : JsNum
  | posInf : JsNum
  | negInf : JsNum
  | fin : ℚ → JsNum
deriving DecidableEq, Repr

/-- `Number.isFinite`, returning the rational value when finite. -/
def JsNum.toQ : JsNum → Option ℚ
  | .fin q => some q
  | _ => none

/-- JS truthiness of a `number` (`NaN` and `0` are falsy). -/
def JsNum.truthy : JsNum → Bool
  | .nan => false
  | .fin q => q ≠ 0
  | _ => true

/-- JS truthiness of a `string | undefined` value (`undefined` and `""` are falsy). -/
def strTruthy : Option String → Bool
  | none => false
  | some s => s ≠ ""

/-! ## Data model (`src/features/calculator/types.ts`) -/

/-- Special dosage-form classification attached by the SIG parser. -/
inductive DosageForm where
  | liquid : DosageForm
  | insulin : DosageForm
  | inhaler : DosageForm
deriving DecidableEq, Repr

/-- `NormalizedSig` — the parsed/enriched prescription instruction. -/
structure NormalizedSig where
  rxcui : Option String := none
  name : Option String := none
  strength : Option String := none
  form : Option String := none
  dose : Option JsNum := none
  doseUnit : Option String := none
  frequencyPerDay : Option JsNum := none
  route : Option String := none
  dosageForm : Option DosageForm := none
deriving DecidableEq, Repr

/-- `NdcCandidate` — one FDA package record. -/
structure NdcCandidate where
  ndc : String
  labelerName : Option String := none
  productName : String
  packageDescription : Option String := none
  strength : Option String := none
  unit : Option String := none
  active : Bool
  startDate : Option String := none
  endDate : Option String := none
  rxCui : Option String := none
  matchScore : Option ℚ := none
deriving DecidableEq, Repr

/-- A computed `{quantityValue, quantityUnit}` (the non-null case of `QuantityResult`). -/
structure QuantityVal where
  quantityValue : ℚ
  quantityUnit : String
deriving DecidableEq, Repr

/-- A parsed `{packageSize, packageUnit}` (the non-null case of `PackageSize`). -/
structure PackageSizeVal where
  packageSize : ℚ
  packageUnit : String
deriving DecidableEq, Repr

/-- A `{packageCount, remainder, isMultiPack}` (the non-null case of `MultiPackResult`). -/
structure MultiPackVal where
  packageCount : ℤ
  remainder : ℚ
  isMultiPack : Bool
deriving DecidableEq, Repr

/-- The closed set of warning types. -/
inductive WarningType where
  | inactive_ndc | overfill | underfill | strength_mismatch | unit_mismatch
  | missing_ndc | invalid_sig | unresolved_rxcui | other
deriving DecidableEq, Repr

/-- Warning severities. -/
inductive Severity where
  | error | warning | info
deriving DecidableEq, Repr

/-- A pipeline warning.  The human-readable `message` text and the numeric
`details` map are display formatting and are not modelled. -/
structure Warning where
  type : WarningType
  severity : Severity
  field : Option String := none
deriving DecidableEq, Repr

/-! ## SigParser (`src/features/calculator/utils/sigParser.ts`) -/

namespace SigParser

/-- `UNIT_NORMALIZATION` of the SIG parser, in insertion order (note: the
liquid volume words are mapped to the *unit name* `"ml"` here). -/
def UNIT_NORMALIZATION : List (String × String) :=
  [("tab", "tablet"), ("tabs", "tablet"), ("tablet", "tablet"), ("tablets", "tablet"),
   ("cap", "capsule"), ("caps", "capsule"), ("capsule", "capsule"), ("capsules", "capsule"),
   ("ml", "ml"), ("milliliter", "ml"), ("milliliters", "ml"),
   ("l", "l"), ("liter", "l"), ("liters", "l"),
   ("mg", "mg"), ("milligram", "mg"), ("milligrams", "mg"),
   ("g", "g"), ("gram", "g"), ("grams", "g"),
   ("unit", "unit"), ("units", "unit"),
   ("drop", "drop"), ("drops", "drop"),
   ("puff", "puff"), ("puffs", "puff"),
   ("spray", "spray"), ("sprays", "spray"),
   ("teaspoon", "ml"), ("tsp", "ml"), ("teaspoons", "ml"), ("tsps", "ml"),
   ("tablespoon", "ml"), ("tbsp", "ml"), ("tablespoons", "ml"),
   ("cup", "ml"), ("cups", "ml"),
   ("oz", "ml"), ("ounce", "ml"), ("ounces", "ml"),
   ("fl oz", "ml"), ("fluid ounce", "ml"), ("fluid ounces", "ml")]

/-- `FREQUENCY_PATTERNS`, in insertion order. -/
def FREQUENCY_PATTERNS : List (String × ℚ) :=
  [("qd", 1), ("qday", 1), ("once daily", 1), ("once a day", 1), ("1x daily", 1), ("1xday", 1),
   ("bid", 2), ("twice daily", 2), ("twice a day", 2), ("2x daily", 2), ("2xday", 2),
   ("tid", 3), ("three times daily", 3), ("three times a day", 3), ("3x daily", 3), ("3xday", 3),
   ("qid", 4), ("four times daily", 4), ("four times a day", 4), ("4x daily", 4), ("4xday", 4),
   ("q6h", 4), ("q8h", 3), ("q12h", 2), ("q4h", 6), ("q2h", 12),
   ("every 6 hours", 4), ("every 8 hours", 3), ("every 12 hours", 2),
   ("every 4 hours", 6), ("every 2 hours", 12)]

/-- `ROUTE_PATTERNS`, in insertion order. -/
def ROUTE_PATTERNS : List (String × String) :=
  [("oral", "oral"), ("by mouth", "oral"), ("po", "oral"), ("p.o.", "oral"),
   ("topical", "topical"), ("apply", "topical"),
   ("injection", "injection"), ("inject", "injection"),
   ("im", "injection"), ("i.m.", "injection"), ("iv", "injection"), ("i.v.", "injection"),
   ("sublingual", "sublingual"), ("sl", "sublingual"),
   ("nasal", "nasal"), ("ophthalmic", "ophthalmic"), ("otic", "otic"),
   ("rectal", "rectal"), ("vaginal", "vaginal"),
   ("inhalation", "inhalation"), ("inhale", "inhalation")]

/-- The SIG parser's `normalizeUnit`. -/
def normalizeUnit (u : String) : String :=
  let n := lowerTrim u
  (lookupStr UNIT_NORMALIZATION n).getD n

/-- First table entry (in insertion order) whose key is contained in `ls`
(the `for … of Object.entries` containment loop). -/
def findByIncl {α : Type} (ls : List Char) : List (String × α) → Option α
  | [] => none
  | (p, v) :: t => if containsSub ls p.data then some v else findByIncl ls t

/-- The optional fractional part `(?:\.\d+)?` after a digit run: returns the
matched characters (with the dot) and the rest. -/
def fracPart (r1 : List Char) : List Char × List Char :=
  match r1 with
  | '.' :: t =>
    let fd := t.takeWhile Char.isDigit
    if fd.isEmpty then ([], r1) else ('.' :: fd, t.dropWhile Char.isDigit)
  | _ => ([], r1)

/-- One attempt of dose pattern 1, `/(\d+(?:\.\d+)?)\s+([a-z]+(?:s)?)\b/i`,
anchored at the head of `cs`: a digit run, optional fraction, at least one
whitespace, a maximal ASCII letter run, and a word boundary after it.
Returns the number token and the unit token. -/
def matchP1At (cs : List Char) : Option (List Char × List Char) :=
  let ds := cs.takeWhile Char.isDigit
  if ds.isEmpty then none else
  let (numTail, r2) := fracPart (cs.dropWhile Char.isDigit)
  if (r2.takeWhile isWs).isEmpty then none else
  let r3 := r2.dropWhile isWs
  let ls := r3.takeWhile Char.isAlpha
  if ls.isEmpty then none else
  match r3.dropWhile Char.isAlpha with
  | [] => some (ds ++ numTail, ls)
  | c :: _ => if isWordChar c then none else some (ds ++ numTail, ls)

/-- Leftmost match of dose pattern 1 (`RegExp.exec` scans positions left to right). -/
def findP1 : List Char → Option (List Char × List Char)
  | [] => none
  | c :: t =>
    match matchP1At (c :: t) with
    | some r => some r
    | none => findP1 t

/-- The no-space unit whitelist of dose pattern 2, in alternation order. -/
def P2_UNITS : List String :=
  ["mg", "ml", "g", "l", "unit", "units", "tab", "tabs", "cap", "caps"]

/-- Case-insensitive alternation attempt with a trailing word boundary:
tries each alternative in order at the head of `cs`. Returns the matched
characters in their original case. -/
def tryAlts (cs : List Char) : List String → Option (List Char)
  | [] => none
  | a :: rest =>
    let n := a.data.length
    let pre := cs.take n
    let bAfter : Bool :=
      match cs.drop n with
      | [] => true
      | d :: _ => ! isWordChar d
    if pre.length = n ∧ lowerL pre = a.data ∧ bAfter = true then
      some pre
    else tryAlts cs rest

/-- One attempt of dose pattern 2,
`/(\d+(?:\.\d+)?)\s*(mg|ml|g|l|unit|units|tab|tabs|cap|caps)\b/i`, anchored
at the head of `cs`. -/
def matchP2At (cs : List Char) : Option (List Char × List Char) :=
  let ds := cs.takeWhile Char.isDigit
  if ds.isEmpty then none else
  let (numTail, r2) := fracPart (cs.dropWhile Char.isDigit)
  let r3 := r2.dropWhile isWs
  match tryAlts r3 P2_UNITS with
  | some u => some (ds ++ numTail, u)
  | none => none

/-- Leftmost match of dose pattern 2. -/
def findP2 : List Char → Option (List Char × List Char)
  | [] => none
  | c :: t =>
    match matchP2At (c :: t) with
    | some r => some r
    | none => findP2 t

/-- Leftmost match of `/\b([a-z]+(?:s)?)\b/i`: the first maximal ASCII letter
run preceded by a non-word character (or the string start) and followed by a
non-word character (or the end).  `prevW` records whether the previous
character was a word character. -/
def findUnitTok : Bool → List Char → Option (List Char)
  | _, [] => none
  | prevW, c :: t =>
    if Char.isAlpha c then
      if prevW then findUnitTok true t
      else
        match (c :: t).dropWhile Char.isAlpha with
        | [] => some ((c :: t).takeWhile Char.isAlpha)
        | d :: _ =>
          if isWordChar d then findUnitTok true t
          else some ((c :: t).takeWhile Char.isAlpha)
    else findUnitTok (isWordChar c) t

/-- `extractDoseAndUnit`: the three dose patterns tried in order,
first successful pattern wins. -/
def extractDoseAndUnit (sig : String) : Option ℚ × Option String :=
  let cs := sig.data
  match findP1 cs with
  | some (num, u) => (some (parseDec num), some (normalizeUnit (String.mk u)))
  | none =>
  match findP2 cs with
  | some (num, u) => (some (parseDec num), some (normalizeUnit (String.mk u)))
  | none =>
  -- Pattern 3: `/^(\d+(?:\.\d+)?)/`, then the first word token after it.
  let ds := cs.takeWhile Char.isDigit
  if ds.isEmpty then (none, none)
  else
    let (numTail, rest) := fracPart (cs.dropWhile Char.isDigit)
    match findUnitTok false rest with
    | some u => (some (parseDec (ds ++ numTail)), some (normalizeUnit (String.mk u)))
    | none => (some (parseDec (ds ++ numTail)), none)

/-- The tail `\s*(?:per\s*day|daily|a\s*day)` of the times-per-day pattern. -/
def freqTail (cs : List Char) : Bool :=
  let r := cs.dropWhile isWs
  (match dropPre "per".data r with
   | some r2 => (dropPre "day".data (r2.dropWhile isWs)).isSome
   | none => false)
  || (dropPre "daily".data r).isSome
  || (match dropPre "a".data r with
      | some r2 => (dropPre "day".data (r2.dropWhile isWs)).isSome
      | none => false)

/-- One attempt of `/(\d+)\s*(?:times?|x)\s*(?:per\s*day|daily|a\s*day)/`,
anchored at the head of `cs`. -/
def matchTimesAt (cs : List Char) : Option ℕ :=
  let ds := cs.takeWhile Char.isDigit
  if ds.isEmpty then none else
  let r := (cs.dropWhile Char.isDigit).dropWhile isWs
  let ok :=
    (match dropPre "times".data r with
     | some r2 => freqTail r2
     | none => false)
    || (match dropPre "time".data r with
        | some r2 => freqTail r2
        | none => false)
    || (match dropPre "x".data r with
        | some r2 => freqTail r2
        | none => false)
  if ok then some (digitsToNat ds) else none

/-- Leftmost match of the times-per-day pattern. -/
def findTimes : List Char → Option ℕ
  | [] => none
  | c :: t =>
    match matchTimesAt (c :: t) with
    | some n => some n
    | none => findTimes t

/-- One attempt of `/every\s*(\d+)\s*hours?/`, anchored at the head of `cs`. -/
def matchEveryAt (cs : List Char) : Option ℕ :=
  match dropPre "every".data cs with
  | none => none
  | some r1 =>
    let r2 := r1.dropWhile isWs
    let ds := r2.takeWhile Char.isDigit
    if ds.isEmpty then none else
    let r3 := (r2.dropWhile Char.isDigit).dropWhile isWs
    if (dropPre "hour".data r3).isSome then some (digitsToNat ds) else none

/-- Leftmost match of the every-N-hours pattern. -/
def findEvery : List Char → Option ℕ
  | [] => none
  | c :: t =>
    match matchEveryAt (c :: t) with
    | some n => some n
    | none => findEvery t

/-- The every-N-hours fallback rule: `round(24 / hours)` for `0 < hours ≤ 24`. -/
def everyHoursFreq (ls : List Char) : Option ℚ :=
  match findEvery ls with
  | some h =>
    if 0 < h ∧ h ≤ 24 then some ((round ((24 : ℚ) / (h : ℚ)) : ℤ) : ℚ) else none
  | none => none

/-- `extractFrequencyPerDay`: fixed phrases first, then the numeric
times-per-day pattern (accepted only for `1 ≤ n ≤ 12`), then every-N-hours. -/
def extractFrequencyPerDay (sig : String) : Option ℚ :=
  let ls := (jsToLower sig).data
  match findByIncl ls FREQUENCY_PATTERNS with
  | some f => some f
  | none =>
    match findTimes ls with
    | some n => if 0 < n ∧ n ≤ 12 then some (n : ℚ) else everyHoursFreq ls
    | none => everyHoursFreq ls

/-- `extractRoute`: substring containment against the route table. -/
def extractRoute (sig : String) : Option String :=
  findByIncl ((jsToLower sig).data) ROUTE_PATTERNS

/-- `detectDosageForm`: inhaler, then insulin (with the narrowing inner
check), then liquid; first match wins. -/
def detectDosageForm (sig : String) (doseUnit : Option String)
    (route : Option String) : Option DosageForm :=
  let ls := (jsToLower sig).data
  let lu := jsToLower (doseUnit.getD "")
  if route = some "inhalation" ∨ containsSub ls "inhal".data ∨
      lu = "puff" ∨ lu = "spray" then
    some .inhaler
  else if (lu = "unit" ∨ containsSub ls "insulin".data ∨ containsSub ls "units".data) ∧
      (containsSub ls "insulin".data ∨
        (lu = "unit" ∧ containsSub ls "subcutaneous".data)) then
    some .insulin
  else if lu = "ml" ∨ lu = "l" ∨
      containsSub ls "teaspoon".data ∨ containsSub ls "tsp".data ∨
      containsSub ls "tablespoon".data ∨ containsSub ls "tbsp".data ∨
      containsSub ls "ounce".data ∨ containsSub ls "fl oz".data ∨
      (route = some "oral" ∧ (lu = "ml" ∨ lu = "l")) then
    some .liquid
  else
    none

/-- `parseSig`: trims the input, returns `{}` for an empty result, otherwise
extracts dose/unit, frequency, route and dosage form. -/
def parseSig (sig : String) : NormalizedSig :=
  let t := jsTrim sig
  if t = "" then {}
  else
    let du := extractDoseAndUnit t
    let freq := extractFrequencyPerDay t
    let route := extractRoute t
    let form := detectDosageForm t du.2 route
    { dose := du.1.map .fin, doseUnit := du.2,
      frequencyPerDay := freq.map .fin, route := route, dosageForm := form }

end SigParser

/-! ## QuantityMath — later revision of `quantityMath.ts` (with dosage-form handling) -/

namespace QuantityMath

/-- `UNIT_NORMALIZATION` of the quantity module (no liquid-volume words), in
insertion order.  The earlier revision of the module carries an identical
copy of this table and of `normalizeUnit`; they are shared here. -/
def UNIT_NORMALIZATION : List (String × String) :=
  [("tab", "tablet"), ("tabs", "tablet"), ("tablet", "tablet"), ("tablets", "tablet"),
   ("cap", "capsule"), ("caps", "capsule"), ("capsule", "capsule"), ("capsules", "capsule"),
   ("ml", "ml"), ("milliliter", "ml"), ("milliliters", "ml"),
   ("l", "l"), ("liter", "l"), ("liters", "l"),
   ("mg", "mg"), ("milligram", "mg"), ("milligrams", "mg"),
   ("g", "g"), ("gram", "g"), ("grams", "g"),
   ("unit", "unit"), ("units", "unit"),
   ("drop", "drop"), ("drops", "drop"),
   ("puff", "puff"), ("puffs", "puff"),
   ("spray", "spray"), ("sprays", "spray")]

/-- The quantity module's `normalizeUnit`. -/
def normalizeUnit (u : String) : String :=
  let n := lowerTrim u
  (lookupStr UNIT_NORMALIZATION n).getD n

/-- The fixed conversion-factor table of `convertToMilliliters`. -/
def CONVERSIONS : List (String × ℚ) :=
  [("teaspoon", 5), ("tsp", 5), ("tablespoon", 15), ("tbsp", 15), ("cup", 240),
   ("oz", 30), ("ounce", 30), ("fl oz", 30), ("fluid ounce", 30),
   ("ml", 1), ("milliliter", 1), ("l", 1000), ("liter", 1000)]

/-- `convertToMilliliters`: multiply by the factor when the normalized unit is
in the table (`if (factor)` — a zero factor would be falsy, but no factor is
zero), else return the value unchanged. -/
def convertToMilliliters (value : ℚ) (fromUnit : String) : ℚ :=
  match lookupStr CONVERSIONS (normalizeUnit fromUnit) with
  | some f => if f ≠ 0 then value * f else value
  | none => value

/-- `handleSpecialDosageForm`: insulin forces the unit to `"unit"`, inhaler
normalizes puff/spray, liquid converts to milliliters unless already ml/l. -/
def handleSpecialDosageForm (dose : ℚ) (doseUnit : String)
    (dosageForm : Option DosageForm) : ℚ × String :=
  match dosageForm with
  | none => (dose, doseUnit)
  | some .insulin => (dose, "unit")
  | some .inhaler =>
    let n := normalizeUnit doseUnit
    if n = "puff" ∨ n = "spray" then (dose, n) else (dose, doseUnit)
  | some .liquid =>
    let n := normalizeUnit doseUnit
    if n = "ml" ∨ n = "l" then (dose, n)
    else (convertToMilliliters dose doseUnit, "ml")

/-- `calculateQuantity` (later revision): requires `dose`, `doseUnit`,
`frequencyPerDay` to be present and `dose`, `frequencyPerDay`, `daysSupply`
to be finite and strictly positive, applies the dosage-form adjustment, then
`quantity = dose × frequencyPerDay × daysSupply`. -/
def calculateQuantity (normalizedSig : Option NormalizedSig)
    (daysSupply : JsNum) : Option QuantityVal :=
  match normalizedSig with
  | none => none
  | some s =>
    match s.dose, s.doseUnit, s.frequencyPerDay with
    | some dose, some doseUnit, some freq =>
      match dose.toQ, freq.toQ, daysSupply.toQ with
      | some d, some f, some ds =>
        if d ≤ 0 ∨ f ≤ 0 ∨ ds ≤ 0 then none
        else
          let adj := handleSpecialDosageForm d doseUnit s.dosageForm
          some { quantityValue := adj.1 * f * ds, quantityUnit := normalizeUnit adj.2 }
      | _, _, _ => none
    | _, _, _ => none

/-- One attempt of `/(\d+)\s+([A-Za-z]+)\s+in\s+\d+\s+[A-Za-z]+/i`, anchored
at the head of `cs`: digits, whitespace, letters, whitespace, the literal
`in` (case-insensitive), whitespace, digits, whitespace, letters.  Returns
the captured size digits and unit letters. -/
def matchPkgAt (cs : List Char) : Option (List Char × List Char) :=
  let ds := cs.takeWhile Char.isDigit
  if ds.isEmpty then none else
  let r1 := cs.dropWhile Char.isDigit
  if (r1.takeWhile isWs).isEmpty then none else
  let r2 := r1.dropWhile isWs
  let us := r2.takeWhile Char.isAlpha
  if us.isEmpty then none else
  let r3 := r2.dropWhile Char.isAlpha
  if (r3.takeWhile isWs).isEmpty then none else
  let r4 := r3.dropWhile isWs
  match dropPre "in".data (lowerL (r4.take 2)) with
  | none => none
  | some _ =>
    if (r4.take 2).length ≠ 2 then none else
    let r5 := r4.drop 2
    if (r5.takeWhile isWs).isEmpty then none else
    let r6 := r5.dropWhile isWs
    if (r6.takeWhile Char.isDigit).isEmpty then none else
    let r7 := r6.dropWhile Char.isDigit
    if (r7.takeWhile isWs).isEmpty then none else
    let r8 := r7.dropWhile isWs
    if (r8.takeWhile Char.isAlpha).isEmpty then none else
    some (ds, us)

/-- Leftmost match of the package-size pattern. -/
def findPkg : List Char → Option (List Char × List Char)
  | [] => none
  | c :: t =>
    match matchPkgAt (c :: t) with
    | some r => some r
    | none => findPkg t

/-- `parsePackageSize`: regex match on the package description, with the
parsed size required to be a number greater than zero. -/
def parsePackageSize (packageDescription : Option String) : Option PackageSizeVal :=
  match packageDescription with
  | none => none
  | some d =>
    match findPkg d.data with
    | none => none
    | some (ds, us) =>
      let size : ℚ := (digitsToNat ds : ℚ)
      if size ≤ 0 then none
      else some { packageSize := size, packageUnit := normalizeUnit (String.mk us) }

/-- `detectOverfillUnderfill`: empty when the package size is absent or the
normalized units differ; otherwise an overfill warning iff the quantity
strictly exceeds 105% of the package size, and an underfill warning iff it
is strictly below 95%. -/
def detectOverfillUnderfill (quantityValue : ℚ) (quantityUnit : String)
    (packageSize : Option PackageSizeVal) : List Warning :=
  match packageSize with
  | none => []
  | some ps =>
    if normalizeUnit quantityUnit ≠ normalizeUnit ps.packageUnit then []
    else
      (if quantityValue > ps.packageSize * 1.05 then
        [{ type := .overfill, severity := .warning, field := some "quantity" }]
       else []) ++
      (if quantityValue < ps.packageSize * 0.95 then
        [{ type := .underfill, severity := .warning, field := some "quantity" }]
       else [])

/-- JS truncating integer part, used by the `%` operator. -/
def ratTrunc (x : ℚ) : ℤ :=
  if 0 ≤ x then ⌊x⌋ else ⌈x⌉

/-- The JS remainder operator `%` (sign of the dividend). -/
def jsMod (q p : ℚ) : ℚ :=
  q - p * (ratTrunc (q / p) : ℚ)

/-- `calculateMultiPack`: null when the units mismatch or the package size is
not positive; else `Math.floor` of the quotient, the `%` remainder, and
`isMultiPack = packageCount >= 1`. -/
def calculateMultiPack (quantityValue : ℚ) (quantityUnit : String)
    (packageSize : Option PackageSizeVal) : Option MultiPackVal :=
  match packageSize with
  | none => none
  | some ps =>
    if normalizeUnit quantityUnit ≠ normalizeUnit ps.packageUnit then none
    else if ps.packageSize ≤ 0 then none
    else
      let n : ℤ := ⌊quantityValue / ps.packageSize⌋
      some { packageCount := n, remainder := jsMod quantityValue ps.packageSize,
             isMultiPack := decide (1 ≤ n) }

end QuantityMath

/-! ## QuantityMathV1 — earlier revision of `quantityMath.ts` (no dosage-form handling) -/

namespace QuantityMathV1

/-- `calculateQuantity` (earlier revision): identical to the later revision
except that no dosage-form adjustment is applied.  The revision's identical
copies of `UNIT_NORMALIZATION`/`normalizeUnit` are shared with `QuantityMath`. -/
def calculateQuantity (normalizedSig : Option NormalizedSig)
    (daysSupply : JsNum) : Option QuantityVal :=
  match normalizedSig with
  | none => none
  | some s =>
    match s.dose, s.doseUnit, s.frequencyPerDay with
    | some dose, some doseUnit, some freq =>
      match dose.toQ, freq.toQ, daysSupply.toQ with
      | some d, some f, some ds =>
        if d ≤ 0 ∨ f ≤ 0 ∨ ds ≤ 0 then none
        else some { quantityValue := d * f * ds,
                    quantityUnit := QuantityMath.normalizeUnit doseUnit }
      | _, _, _ => none
    | _, _, _ => none

end QuantityMathV1

/-! ## NdcSelect — deterministic NDC scoring/ranking service -/

namespace NdcSelect

/-- Scoring breakdown of `ScoredCandidate`. -/
structure ScoreBreakdown where
  activeStatus : ℚ
  packageMatch : ℚ
  strengthMatch : ℚ
  unitMatch : ℚ
deriving DecidableEq, Repr

/-- A scored candidate: the candidate together with its total score and
breakdown (`NdcCandidate & {score, scoreBreakdown}`). -/
structure ScoredCandidate where
  cand : NdcCandidate
  score : ℚ
  scoreBreakdown : ScoreBreakdown
deriving DecidableEq, Repr

/-- `normalizeUnitForMatch`: lowercase and trim, empty for a missing unit. -/
def normalizeUnitForMatch : Option String → String
  | none => ""
  | some u => lowerTrim u

/-- The `variations` synonym groups of `compareUnits`, in insertion order. -/
def VARIATIONS : List (List String) :=
  [["tab", "tabs", "tablet", "tablets"],
   ["cap", "caps", "capsule", "capsules"],
   ["ml", "milliliter", "milliliters", "millilitre", "millilitres"],
   ["mg", "milligram", "milligrams"],
   ["unit", "units"],
   ["puff", "puffs"],
   ["spray", "sprays"],
   ["drop", "drops"]]

/-- `compareUnits`: 0 when either unit is missing/empty, 1 on normalized
equality or membership in a common synonym group, else 0. -/
def compareUnits (unit1 unit2 : Option String) : ℚ :=
  if ¬ strTruthy unit1 ∨ ¬ strTruthy unit2 then 0
  else
    let n1 := normalizeUnitForMatch unit1
    let n2 := normalizeUnitForMatch unit2
    if n1 = n2 then 1
    else if VARIATIONS.any (fun g => g.contains n1 && g.contains n2) then 1
    else 0

/-- `replace(/\s/g, "").toLowerCase()` — strip all whitespace, then lowercase. -/
def stripWsLower (s : String) : String :=
  String.mk (lowerL (s.data.filter (fun c => ! isWs c)))

/-- Leftmost match of `/(\d+(?:\.\d+)?)(\w+)?/`: the number and the (possibly
empty) word-character run after it. -/
def findNumUnit : List Char → Option (List Char × List Char)
  | [] => none
  | c :: t =>
    if c.isDigit then
      let ds := (c :: t).takeWhile Char.isDigit
      let (numTail, r) := SigParser.fracPart ((c :: t).dropWhile Char.isDigit)
      some (ds ++ numTail, r.takeWhile isWordChar)
    else findNumUnit t

/-- `compareStrengths`: 0 when either is missing/empty, 1 on
whitespace-stripped lowercase equality, 0.8 when the extracted numbers agree
within 0.001 and the extracted units compare above 0.5, else 0. -/
def compareStrengths (strength1 strength2 : Option String) : ℚ :=
  if ¬ strTruthy strength1 ∨ ¬ strTruthy strength2 then 0
  else
    let n1 := stripWsLower (strength1.getD "")
    let n2 := stripWsLower (strength2.getD "")
    if n1 = n2 then 1
    else
      match findNumUnit n1.data, findNumUnit n2.data with
      | some (num1, u1), some (num2, u2) =>
        if |parseDec num1 - parseDec num2| < 0.001 ∧
            compareUnits (some (String.mk u1)) (some (String.mk u2)) > 0.5 then 0.8
        else 0
      | _, _ => 0

/-- JS truthiness of a `number | null` (`null`, `0` and `NaN` are falsy; the
call sites only ever pass finite values). -/
def qTruthy : Option ℚ → Bool
  | none => false
  | some q => q ≠ 0

/-- `calculatePackageMatchScore`: neutral 0.5 when either side is missing or
the package size is not positive, else banded by `ratio = quantity / size`. -/
def calculatePackageMatchScore (calculatedQuantity packageSize : Option ℚ) : ℚ :=
  if ¬ qTruthy calculatedQuantity ∨ ¬ qTruthy packageSize ∨
      (packageSize.getD 0) ≤ 0 then 0.5
  else
    let q := calculatedQuantity.getD 0
    let p := packageSize.getD 0
    let r := q / p
    if |r - 1| < 0.01 then 1
    else if |r - 1| < 0.05 then 0.95
    else if 1 ≤ r ∧ r ≤ 1.2 then 0.9 - (r - 1) * 0.5
    else if 0.8 ≤ r ∧ r < 1 then 0.85 - (1 - r) * 0.5
    else if 1.2 < r ∧ r ≤ 2 then 0.7 - (r - 1.2) * 0.2
    else if r > 2 then max 0.3 (0.5 - (r - 2) * 0.1)
    else max 0.2 (0.4 - (0.8 - r) * 0.5)

/-- The `breakdown.packageMatch` computation of `scoreNdcCandidate`: left at
the neutral default 0.5 unless the guard `normalizedSig && daysSupply`
passes and both a quantity and a package size can be computed. -/
def packageMatchOf (candidate : NdcCandidate)
    (normalizedSig : Option NormalizedSig) (daysSupply : Option JsNum) : ℚ :=
  match normalizedSig, daysSupply with
  | some s, some d =>
    if d.truthy then
      match QuantityMath.calculateQuantity (some s) d with
      | some qr =>
        match QuantityMath.parsePackageSize candidate.packageDescription with
        | some ps => calculatePackageMatchScore (some qr.quantityValue) (some ps.packageSize)
        | none => 0.5
      | none => 0.5
    else 0.5
  | _, _ => 0.5

/-- The `breakdown.strengthMatch` computation of `scoreNdcCandidate`:
compared when both truthy, neutral 0.5 when both falsy, else 0. -/
def strengthMatchOf (candidate : NdcCandidate)
    (normalizedSig : Option NormalizedSig) : ℚ :=
  let sigStrength := normalizedSig.bind (·.strength)
  if strTruthy sigStrength ∧ strTruthy candidate.strength then
    compareStrengths sigStrength candidate.strength
  else if ¬ strTruthy sigStrength ∧ ¬ strTruthy candidate.strength then 0.5
  else 0

/-- The `breakdown.unitMatch` computation of `scoreNdcCandidate`. -/
def unitMatchOf (candidate : NdcCandidate)
    (normalizedSig : Option NormalizedSig) : ℚ :=
  let sigUnit := normalizedSig.bind (·.doseUnit)
  if strTruthy sigUnit ∧ strTruthy candidate.unit then
    compareUnits sigUnit candidate.unit
  else if ¬ strTruthy sigUnit ∧ ¬ strTruthy candidate.unit then 0.5
  else 0

/-- `scoreNdcCandidate`: the four sub-scores and the weighted total
(30% active status + 40% package match + 15% strength + 15% unit). -/
def scoreNdcCandidate (candidate : NdcCandidate)
    (normalizedSig : Option NormalizedSig) (daysSupply : Option JsNum) :
    ScoredCandidate :=
  let activeStatus : ℚ := if candidate.active then 1 else 0
  let packageMatch : ℚ := packageMatchOf candidate normalizedSig daysSupply
  let strengthMatch : ℚ := strengthMatchOf candidate normalizedSig
  let unitMatch : ℚ := unitMatchOf candidate normalizedSig
  let totalScore :=
    activeStatus * 0.3 + packageMatch * 0.4 + strengthMatch * 0.15 + unitMatch * 0.15
  { cand := candidate, score := totalScore,
    scoreBreakdown :=
      { activeStatus := activeStatus, packageMatch := packageMatch,
        strengthMatch := strengthMatch, unitMatch := unitMatch } }

/-- The comparator of `rankNdcCandidates`: total score descending when the
difference exceeds 0.001, else active status, else equal (returns the sign
convention of a JS sort comparator). -/
def rankCmp (a b : ScoredCandidate) : ℚ :=
  if |a.score - b.score| > 0.001 then b.score - a.score
  else if a.cand.active ≠ b.cand.active then (if a.cand.active then -1 else 1)
  else 0

/-- `a` strictly precedes `b` under the comparator. -/
def rankBefore (a b : ScoredCandidate) : Bool :=
  rankCmp a b < 0

/-- Stable insertion step: insert `x` before the first element it strictly
precedes.  `Array.prototype.sort` is modelled as a stable sort by the
comparator (ECMAScript requires stability; the element order produced under
an inconsistent comparator is implementation-defined, and a stable insertion
sort is taken as the model). -/
def insertRanked (x : ScoredCandidate) : List ScoredCandidate → List ScoredCandidate
  | [] => [x]
  | y :: ys => if rankBefore x y then x :: y :: ys else y :: insertRanked x ys

/-- Stable sort of the scored candidates (elements inserted left to right). -/
def sortRanked (acc : List ScoredCandidate) : List ScoredCandidate → List ScoredCandidate
  | [] => acc
  | x :: xs => sortRanked (insertRanked x acc) xs

/-- `rankNdcCandidates`: score all candidates, sort by the comparator, and
return the candidates with the `score`/`scoreBreakdown` fields stripped. -/
def rankNdcCandidates (candidates : List NdcCandidate)
    (normalizedSig : Option NormalizedSig) (daysSupply : Option JsNum) :
    List NdcCandidate :=
  match candidates with
  | [] => []
  | _ =>
    let scored := candidates.map (fun c => scoreNdcCandidate c normalizedSig daysSupply)
    (sortRanked [] scored).map (·.cand)

end NdcSelect

/-! ## FdaNdc — NDC normalization and candidate derivation
(`src/features/calculator/server/services/fdaNdc.ts`) -/

namespace FdaNdc

/-- `ndc.replace(/[-\s]/g, "")` — strip dashes and whitespace. -/
def cleanNdc (s : String) : List Char :=
  s.data.filter (fun c => ! (c = '-' || isWs c))

/-- `normalizeNdc`: null for a missing/empty input; a 10-character cleaned
code is zero-padded on the left and split 5-4-2; an 11-character cleaned
code is split 5-4-2; a cleaned code of any other non-zero length is
returned as-is ("let validation handle it"); empty cleaned input is null. -/
def normalizeNdc (ndc : Option String) : Option String :=
  match ndc with
  | none => none
  | some s =>
    if s = "" then none
    else
      let cleaned := cleanNdc s
      if cleaned.length = 10 then
        let n := '0' :: cleaned
        some (String.mk (n.take 5 ++ '-' :: ((n.drop 5).take 4) ++ '-' :: n.drop 9))
      else if cleaned.length = 11 then
        some (String.mk
          (cleaned.take 5 ++ '-' :: ((cleaned.drop 5).take 4) ++ '-' :: cleaned.drop 9))
      else if cleaned.length > 0 then some (String.mk cleaned)
      else none

/-- The normalized 11-digit `XXXXX-XXXX-XX` NDC format of the data model:
five digits, a dash, four digits, a dash, two digits. -/
def isNdc11Format (s : String) : Bool :=
  match s.data with
  | [a, b, c, d, e, x, f, g, h, i, y, j, k] =>
    x = '-' && y = '-' && ([a, b, c, d, e, f, g, h, i, j, k].all Char.isDigit)
  | _ => false

/-- One `active_ingredients` entry of an FDA result. -/
structure FdaIngredient where
  name : Option String := none
  strength : Option String := none
deriving DecidableEq, Repr

/-- One raw FDA package-search record (the fields `parseFdaResponse` reads). -/
structure FdaNdcResult where
  product_ndc : Option String := none
  proprietary_name : Option String := none
  proprietary_name_suffix : Option String := none
  non_proprietary_name : Option String := none
  dosage_form : Option String := none
  active_ingredients : Option (List FdaIngredient) := none
  listing_expiration_date : Option String := none
  marketing_start_date : Option String := none
  package_ndc : Option String := none
  package_description : Option String := none
  labeler_name : Option String := none
deriving DecidableEq, Repr

/-- Comma-space join of `Array.prototype.join(", ")`. -/
def joinComma : List String → String
  | [] => ""
  | [s] => s
  | s :: t => s ++ ", " ++ joinComma t

/-- `extractStrength`: join the truthy ingredient strengths. -/
def extractStrength (activeIngredients : Option (List FdaIngredient)) : Option String :=
  match activeIngredients with
  | none => none
  | some [] => none
  | some l =>
    let strengths := (l.filterMap (·.strength)).filter (fun s => s ≠ "")
    if strengths.isEmpty then none else some (joinComma strengths)

/-- `s.toUpperCase()` (ASCII). -/
def jsToUpper (s : String) : String :=
  String.mk (s.data.map Char.toUpper)

/-- The alternation of `extractUnit`'s regex, in order (compared lowercase). -/
def UNIT_WORDS : List String :=
  ["tablet", "capsule", "ml", "mg", "g", "unit", "puff", "spray", "drop"]

/-- Leftmost match of `/\b(TABLET|CAPSULE|ML|MG|G|UNIT|PUFF|SPRAY|DROP)\b/i`:
a word from the alternation with word boundaries on both sides.  `prevW`
records whether the previous character was a word character. -/
def findUnitWord : Bool → List Char → Option (List Char)
  | _, [] => none
  | prevW, c :: t =>
    match (if prevW then none else SigParser.tryAlts (c :: t) UNIT_WORDS) with
    | some m => some m
    | none => findUnitWord (isWordChar c) t

/-- `extractUnit`: the unit word found in the package description, upper-cased;
else a keyword scan of the dosage form. -/
def extractUnit (dosageForm packageDescription : Option String) : Option String :=
  let fromDesc : Option String :=
    if strTruthy packageDescription then
      match findUnitWord false (packageDescription.getD "").data with
      | some m => some (jsToUpper (String.mk m))
      | none => none
    else none
  match fromDesc with
  | some u => some u
  | none =>
    if strTruthy dosageForm then
      let fu := jsToUpper (dosageForm.getD "")
      if strIncludes fu "TABLET" then some "TABLET"
      else if strIncludes fu "CAPSULE" then some "CAPSULE"
      else if strIncludes fu "SOLUTION" ∨ strIncludes fu "SUSPENSION" then some "ML"
      else if strIncludes fu "INHALATION" then some "PUFF"
      else none
    else none

/-- `parseFdaResponse`: derive `NdcCandidate`s from raw records.  The
`isActive` parameter stands for `isActiveNdc`, whose result compares the
listing expiration date against the current date — real time is outside the
embedding, so the date check is passed in as a function. -/
def parseFdaResponse (isActive : Option String → Bool)
    (results : List FdaNdcResult) : List NdcCandidate :=
  results.filterMap (fun result =>
    let ndcCode := result.product_ndc <|> result.package_ndc
    if ¬ strTruthy ndcCode then none
    else
      match normalizeNdc ndcCode with
      | none => none
      | some normalizedNdc =>
        let productName :=
          if strTruthy result.proprietary_name ∧ strTruthy result.proprietary_name_suffix then
            jsTrim ((result.proprietary_name.getD "") ++ " " ++
              (result.proprietary_name_suffix.getD ""))
          else
            (result.proprietary_name <|> result.non_proprietary_name).getD "Unknown Product"
        some
          { ndc := normalizedNdc,
            labelerName := result.labeler_name,
            productName := productName,
            packageDescription := result.package_description,
            strength := extractStrength result.active_ingredients,
            unit := extractUnit result.dosage_form result.package_description,
            active := isActive result.listing_expiration_date,
            startDate := result.marketing_start_date,
            endDate := result.listing_expiration_date,
            rxCui := none,
            matchScore := none })

end FdaNdc

/-! ## Supporting lemmas -/

theorem char_toNat_ofNat_valid (n : ℕ) (h : n < 0xd800) : (Char.ofNat n).toNat = n := by
  unfold Char.ofNat
  rw [dif_pos (Or.inl h)]
  rfl

theorem char_toLower_eq_self {c : Char} (h : ¬ (65 ≤ c.toNat ∧ c.toNat ≤ 90)) :
    c.toLower = c := by
  unfold Char.toLower
  simp only []
  rw [if_neg]
  exact fun hc => h ⟨hc.1, hc.2⟩

theorem char_toLower_not_upper (c : Char) :
    ¬ (65 ≤ c.toLower.toNat ∧ c.toLower.toNat ≤ 90) := by
  unfold Char.toLower
  by_cases h : c.toNat ≥ 65 ∧ c.toNat ≤ 90
  · rw [if_pos h]
    rw [char_toNat_ofNat_valid _ (by omega)]
    omega
  · rw [if_neg h]
    exact fun hc => h ⟨hc.1, hc.2⟩

theorem char_toLower_toLower (c : Char) : c.toLower.toLower = c.toLower :=
  char_toLower_eq_self (char_toLower_not_upper c)

theorem dropWhile_dropWhile {α : Type} (p : α → Bool) (l : List α) :
    (l.dropWhile p).dropWhile p = l.dropWhile p := by
  cases h : l.dropWhile p with
  | nil => rfl
  | cons b t =>
    have hb := List.head?_dropWhile_not p l
    rw [h] at hb
    simp at hb
    rw [List.dropWhile_cons_of_neg]
    simp [hb]

theorem dropWhile_head_false {α : Type} (l : List α) (p : α → Bool) :
    ∀ b t, l.dropWhile p = b :: t → p b = false := by
  intro b t h
  have hb := List.head?_dropWhile_not p l
  rw [h] at hb
  simpa using hb

theorem trimL_isPre_dropWhile (l : List Char) :
    trimL l <+: l.dropWhile isWs := by
  unfold trimL
  have h1 : ((l.dropWhile isWs).reverse.dropWhile isWs) <:+ (l.dropWhile isWs).reverse :=
    List.dropWhile_suffix isWs
  have h2 := @List.reverse_suffix Char
    (((l.dropWhile isWs).reverse.dropWhile isWs).reverse) (l.dropWhile isWs)
  simp only [List.reverse_reverse] at h2
  exact h2.mp h1

theorem dropWhile_trimL (l : List Char) : (trimL l).dropWhile isWs = trimL l := by
  cases h : trimL l with
  | nil => rfl
  | cons b t =>
    have hpre := trimL_isPre_dropWhile l
    rw [h] at hpre
    obtain ⟨r, hr⟩ := hpre
    have hb : isWs b = false := dropWhile_head_false l isWs b (t ++ r) (by rw [← hr]; rfl)
    rw [List.dropWhile_cons_of_neg]
    simp [hb]

theorem trimL_idem (l : List Char) : trimL (trimL l) = trimL l := by
  have h1 : (trimL l).dropWhile isWs = trimL l := dropWhile_trimL l
  have h2 : (trimL l).reverse = (l.dropWhile isWs).reverse.dropWhile isWs := by
    rw [trimL, List.reverse_reverse]
  show (((trimL l).dropWhile isWs).reverse.dropWhile isWs).reverse = trimL l
  rw [h1, h2, dropWhile_dropWhile, ← h2, List.reverse_reverse]

theorem mem_trimL {c : Char} {l : List Char} (h : c ∈ trimL l) : c ∈ l := by
  unfold trimL at h
  rw [List.mem_reverse] at h
  have h1 := @List.dropWhile_subset Char ((l.dropWhile isWs).reverse) isWs c h
  rw [List.mem_reverse] at h1
  exact List.dropWhile_subset isWs h1

theorem lowerL_of_mem_lowerL {c : Char} {l : List Char} (h : c ∈ lowerL l) :
    c.toLower = c := by
  unfold lowerL at h
  obtain ⟨a, _, rfl⟩ := List.mem_map.mp h
  exact char_toLower_toLower a

theorem lowerL_trimL_lowerL (l : List Char) :
    lowerL (trimL (lowerL l)) = trimL (lowerL l) := by
  have hfix : ∀ c ∈ trimL (lowerL l), c.toLower = c := fun c hc =>
    lowerL_of_mem_lowerL (mem_trimL hc)
  calc lowerL (trimL (lowerL l)) = (trimL (lowerL l)).map id := List.map_congr_left hfix
  _ = trimL (lowerL l) := List.map_id _

theorem lowerTrim_idem (s : String) : lowerTrim (lowerTrim s) = lowerTrim s := by
  show String.mk (trimL (lowerL (trimL (lowerL s.data)))) = String.mk (trimL (lowerL s.data))
  rw [lowerL_trimL_lowerL, trimL_idem]

theorem lookupStr_mem {α : Type} {l : List (String × α)} {s : String} {v : α}
    (h : lookupStr l s = some v) : (s, v) ∈ l := by
  induction l with
  | nil => simp [lookupStr] at h
  | cons p t ih =>
    rw [lookupStr] at h
    split at h
    · rename_i heq
      subst heq
      obtain rfl : p.2 = v := by injection h
      exact List.mem_cons_self _ _
    · exact List.mem_cons_of_mem _ (ih h)

/-- Every value of a unit-normalization table is itself a fixed point of the
table: lowercase/trim-stable and looked up to itself. -/
def tableStable (T : List (String × String)) : Bool :=
  T.all (fun p => lowerTrim p.2 = p.2 && lookupStr T p.2 = some p.2)

theorem genNorm_idem (T : List (String × String)) (hT : tableStable T = true)
    (x : String) :
    (let n := lowerTrim ((lookupStr T (lowerTrim x)).getD (lowerTrim x));
     (lookupStr T n).getD n) = (lookupStr T (lowerTrim x)).getD (lowerTrim x) := by
  cases h : lookupStr T (lowerTrim x) with
  | none =>
    simp only [Option.getD_none, Option.getD_some]
    rw [lowerTrim_idem, h]
    rfl
  | some v =>
    have hv := lookupStr_mem h
    have hsv := List.all_eq_true.mp hT _ hv
    simp only [Bool.and_eq_true, decide_eq_true_eq] at hsv
    simp only [Option.getD_some]
    rw [hsv.1, hsv.2]
    rfl

theorem quantityTable_stable : tableStable QuantityMath.UNIT_NORMALIZATION = true := by
  decide

theorem sigTable_stable : tableStable SigParser.UNIT_NORMALIZATION = true := by
  decide

theorem compareUnits_cases (u1 u2 : Option String) :
    NdcSelect.compareUnits u1 u2 = 0 ∨ NdcSelect.compareUnits u1 u2 = 1 := by
  unfold NdcSelect.compareUnits
  split
  · exact Or.inl rfl
  simp only []
  split
  · exact Or.inr rfl
  split
  · exact Or.inr rfl
  · exact Or.inl rfl

theorem compareStrengths_cases (s1 s2 : Option String) :
    NdcSelect.compareStrengths s1 s2 = 0 ∨ NdcSelect.compareStrengths s1 s2 = 0.8 ∨
      NdcSelect.compareStrengths s1 s2 = 1 := by
  unfold NdcSelect.compareStrengths
  split
  · exact Or.inl rfl
  simp only []
  split
  · exact Or.inr (Or.inr rfl)
  split
  · split
    · exact Or.inr (Or.inl rfl)
    · exact Or.inl rfl
  · exact Or.inl rfl

theorem pkgScore_bounds (a b : Option ℚ) :
    0.2 ≤ NdcSelect.calculatePackageMatchScore a b ∧
      NdcSelect.calculatePackageMatchScore a b ≤ 1 := by
  unfold NdcSelect.calculatePackageMatchScore
  split
  · norm_num
  simp only []
  split
  · norm_num
  split
  · norm_num
  split
  · rename_i h; constructor <;> [linarith [h.2]; linarith [h.1]]
  split
  · rename_i h; constructor <;> [linarith [h.1]; linarith [h.2]]
  split
  · rename_i h; constructor <;> [linarith [h.2]; linarith [h.1]]
  split
  · rename_i h
    constructor
    · calc (0.2 : ℚ) ≤ 0.3 := by norm_num
      _ ≤ _ := le_max_left _ _
    · apply max_le (by norm_num)
      linarith
  · rename_i h1 h2 h3 h4 h5 h6
    constructor
    · exact le_trans (by norm_num) (le_max_left _ _)
    · apply max_le (by norm_num)
      push_neg at h6
      linarith

theorem packageMatchOf_bounds (c : NdcCandidate) (sig : Option NormalizedSig)
    (ds : Option JsNum) :
    0.2 ≤ NdcSelect.packageMatchOf c sig ds ∧ NdcSelect.packageMatchOf c sig ds ≤ 1 := by
  unfold NdcSelect.packageMatchOf
  split
  · split
    · split
      · split
        · exact pkgScore_bounds _ _
        · norm_num
      · norm_num
    · norm_num
  · norm_num

theorem strengthMatchOf_bounds (c : NdcCandidate) (sig : Option NormalizedSig) :
    0 ≤ NdcSelect.strengthMatchOf c sig ∧ NdcSelect.strengthMatchOf c sig ≤ 1 := by
  unfold NdcSelect.strengthMatchOf
  simp only []
  split
  · rcases compareStrengths_cases (sig.bind (·.strength)) c.strength with h | h | h <;>
      rw [h] <;> norm_num
  split
  · norm_num
  · norm_num

theorem unitMatchOf_bounds (c : NdcCandidate) (sig : Option NormalizedSig) :
    0 ≤ NdcSelect.unitMatchOf c sig ∧ NdcSelect.unitMatchOf c sig ≤ 1 := by
  unfold NdcSelect.unitMatchOf
  simp only []
  split
  · rcases compareUnits_cases (sig.bind (·.doseUnit)) c.unit with h | h <;>
      rw [h] <;> norm_num
  split
  · norm_num
  · norm_num

/-! ## Sorting lemmas for the ranking comparator -/

/-- Adjacent-order invariant of the rank sort: the later element never
strictly precedes the earlier one under the comparator. -/
def rankAdjOk (a b : NdcSelect.ScoredCandidate) : Prop :=
  NdcSelect.rankBefore b a = false

theorem rankBefore_asymm {a b : NdcSelect.ScoredCandidate}
    (h : NdcSelect.rankBefore a b = true) : NdcSelect.rankBefore b a = false := by
  unfold NdcSelect.rankBefore NdcSelect.rankCmp at *
  rw [decide_eq_true_iff] at h
  rw [decide_eq_false_iff_not]
  by_cases hC : |a.score - b.score| > 0.001
  · rw [if_pos hC] at h
    rw [if_pos (by rwa [abs_sub_comm])]
    linarith
  · rw [if_neg hC] at h
    rw [if_neg (by rwa [abs_sub_comm])]
    by_cases hD : a.cand.active ≠ b.cand.active
    · rw [if_pos hD] at h
      rw [if_pos (fun hh => hD hh.symm)]
      by_cases ha : a.cand.active = true
      · have hb : b.cand.active = false := by
          revert hD; cases hbv : b.cand.active <;> simp [ha]
        rw [hb]
        norm_num
      · rw [if_neg ha] at h
        norm_num at h
    · rw [if_neg hD] at h
      norm_num at h

theorem chain'_insertRanked (x : NdcSelect.ScoredCandidate) :
    ∀ l, List.Chain' rankAdjOk l → List.Chain' rankAdjOk (NdcSelect.insertRanked x l)
  | [], _ => by simp [NdcSelect.insertRanked]
  | y :: ys, h => by
    rw [NdcSelect.insertRanked]
    split
    · rename_i hxy
      exact h.cons (rankBefore_asymm hxy)
    · rename_i hxy
      have hxyf : NdcSelect.rankBefore x y = false := by
        revert hxy; cases NdcSelect.rankBefore x y <;> simp
      have h1 : List.Chain' rankAdjOk (NdcSelect.insertRanked x ys) :=
        chain'_insertRanked x ys h.tail
      apply List.chain'_cons'.mpr
      refine ⟨?_, h1⟩
      intro b hb
      cases ys with
      | nil =>
        simp [NdcSelect.insertRanked] at hb
        subst hb
        exact hxyf
      | cons z zs =>
        rw [NdcSelect.insertRanked] at hb
        split at hb
        · simp at hb
          subst hb
          exact hxyf
        · simp at hb
          subst hb
          exact (List.chain'_cons.mp h).1

theorem chain'_sortRanked :
    ∀ (l acc : List NdcSelect.ScoredCandidate), List.Chain' rankAdjOk acc →
      List.Chain' rankAdjOk (NdcSelect.sortRanked acc l)
  | [], _, hacc => hacc
  | x :: xs, acc, hacc => by
    rw [NdcSelect.sortRanked]
    exact chain'_sortRanked xs _ (chain'_insertRanked x acc hacc)

theorem insertRanked_perm (x : NdcSelect.ScoredCandidate) :
    ∀ l, (NdcSelect.insertRanked x l).Perm (x :: l)
  | [] => by simp [NdcSelect.insertRanked]
  | y :: ys => by
    rw [NdcSelect.insertRanked]
    split
    · exact List.Perm.refl _
    · exact ((insertRanked_perm x ys).cons y).trans (List.Perm.swap _ _ _)

theorem sortRanked_perm :
    ∀ (l acc : List NdcSelect.ScoredCandidate),
      (NdcSelect.sortRanked acc l).Perm (acc ++ l)
  | [], acc => by simp [NdcSelect.sortRanked]
  | x :: xs, acc => by
    rw [NdcSelect.sortRanked]
    refine (sortRanked_perm xs _).trans ?_
    refine ((insertRanked_perm x acc).append_right xs).trans ?_
    exact List.perm_middle.symm

theorem chain'_transfer {α : Type} {R S : α → α → Prop} {P : α → Prop} :
    ∀ {l : List α}, List.Chain' R l → (∀ x ∈ l, P x) →
      (∀ a b, P a → P b → R a b → S a b) → List.Chain' S l
  | [], _, _, _ => List.chain'_nil
  | [_], _, _, _ => List.chain'_singleton _
  | a :: b :: t, h, hP, himp => by
    rw [List.chain'_cons] at h ⊢
    refine ⟨himp a b (hP a (by simp)) (hP b (by simp)) h.1, ?_⟩
    exact chain'_transfer h.2 (fun x hx => hP x (List.mem_cons_of_mem a hx)) himp

theorem rankBefore_false_sound {a b : NdcSelect.ScoredCandidate}
    (h : NdcSelect.rankBefore b a = false) :
    b.score ≤ a.score + 0.001 ∧
      (|a.score - b.score| ≤ 0.001 → b.cand.active = true → a.cand.active = true) := by
  unfold NdcSelect.rankBefore NdcSelect.rankCmp at h
  rw [decide_eq_false_iff_not] at h
  by_cases hC : |b.score - a.score| > 0.001
  · rw [if_pos hC] at h
    push_neg at h
    constructor
    · linarith
    · intro habs
      rw [abs_sub_comm] at habs
      exact absurd habs (by linarith)
  · constructor
    · have h1 : b.score - a.score ≤ |b.score - a.score| := le_abs_self _
      push_neg at hC
      linarith
    · intro _ hb
      by_cases hD : b.cand.active ≠ a.cand.active
      · rw [if_neg hC, if_pos hD, if_pos hb] at h
        norm_num at h
      · push_neg at hD
        rw [← hD]
        exact hb

/-! ## NDC-format lemmas -/

theorem ndcFormat_of_ten (l : List Char) (hl : l.length = 10)
    (hd : l.all Char.isDigit = true) :
    FdaNdc.isNdc11Format (String.mk
      (('0' :: l).take 5 ++ '-' :: ((('0' :: l).drop 5).take 4) ++ '-' :: ('0' :: l).drop 9)) =
      true := by
  rcases l with _|⟨a,l⟩; · simp at hl
  rcases l with _|⟨b,l⟩; · simp at hl
  rcases l with _|⟨c,l⟩; · simp at hl
  rcases l with _|⟨d,l⟩; · simp at hl
  rcases l with _|⟨e,l⟩; · simp at hl
  rcases l with _|⟨f,l⟩; · simp at hl
  rcases l with _|⟨g,l⟩; · simp at hl
  rcases l with _|⟨h1,l⟩; · simp at hl
  rcases l with _|⟨i,l⟩; · simp at hl
  rcases l with _|⟨j,l⟩; · simp at hl
  simp only [List.length_cons] at hl
  obtain rfl : l = [] := List.length_eq_zero.mp (by omega)
  simp only [List.all_cons, List.all_nil, Bool.and_eq_true] at hd
  simp [FdaNdc.isNdc11Format, hd]

theorem ndcFormat_of_eleven (l : List Char) (hl : l.length = 11)
    (hd : l.all Char.isDigit = true) :
    FdaNdc.isNdc11Format (String.mk
      (l.take 5 ++ '-' :: ((l.drop 5).take 4) ++ '-' :: l.drop 9)) = true := by
  rcases l with _|⟨a,l⟩; · simp at hl
  rcases l with _|⟨b,l⟩; · simp at hl
  rcases l with _|⟨c,l⟩; · simp at hl
  rcases l with _|⟨d,l⟩; · simp at hl
  rcases l with _|⟨e,l⟩; · simp at hl
  rcases l with _|⟨f,l⟩; · simp at hl
  rcases l with _|⟨g,l⟩; · simp at hl
  rcases l with _|⟨h1,l⟩; · simp at hl
  rcases l with _|⟨i,l⟩; · simp at hl
  rcases l with _|⟨j,l⟩; · simp at hl
  rcases l with _|⟨k,l⟩; · simp at hl
  simp only [List.length_cons] at hl
  obtain rfl : l = [] := List.length_eq_zero.mp (by omega)
  simp only [List.all_cons, List.all_nil, Bool.and_eq_true] at hd
  simp [FdaNdc.isNdc11Format, hd]

theorem ndcDigits_of_ten (l : List Char) (hl : l.length = 10) :
    (('0' :: l).take 5 ++ '-' :: ((('0' :: l).drop 5).take 4) ++
      '-' :: ('0' :: l).drop 9).filter (fun c => c != '-') =
      ('0' :: l).filter (fun c => c != '-') := by
  rcases l with _|⟨a,l⟩; · simp at hl
  rcases l with _|⟨b,l⟩; · simp at hl
  rcases l with _|⟨c,l⟩; · simp at hl
  rcases l with _|⟨d,l⟩; · simp at hl
  rcases l with _|⟨e,l⟩; · simp at hl
  rcases l with _|⟨f,l⟩; · simp at hl
  rcases l with _|⟨g,l⟩; · simp at hl
  rcases l with _|⟨h1,l⟩; · simp at hl
  rcases l with _|⟨i,l⟩; · simp at hl
  rcases l with _|⟨j,l⟩; · simp at hl
  simp only [List.length_cons] at hl
  obtain rfl : l = [] := List.length_eq_zero.mp (by omega)
  simp [List.filter]

theorem ndcDigits_of_eleven (l : List Char) (hl : l.length = 11) :
    (l.take 5 ++ '-' :: ((l.drop 5).take 4) ++ '-' :: l.drop 9).filter (fun c => c != '-') =
      l.filter (fun c => c != '-') := by
  rcases l with _|⟨a,l⟩; · simp at hl
  rcases l with _|⟨b,l⟩; · simp at hl
  rcases l with _|⟨c,l⟩; · simp at hl
  rcases l with _|⟨d,l⟩; · simp at hl
  rcases l with _|⟨e,l⟩; · simp at hl
  rcases l with _|⟨f,l⟩; · simp at hl
  rcases l with _|⟨g,l⟩; · simp at hl
  rcases l with _|⟨h1,l⟩; · simp at hl
  rcases l with _|⟨i,l⟩; · simp at hl
  rcases l with _|⟨j,l⟩; · simp at hl
  rcases l with _|⟨k,l⟩; · simp at hl
  simp only [List.length_cons] at hl
  obtain rfl : l = [] := List.length_eq_zero.mp (by omega)
  simp [List.filter]

theorem cleanNdc_no_dash (s : String) :
    (FdaNdc.cleanNdc s).filter (fun c => c != '-') = FdaNdc.cleanNdc s := by
  rw [List.filter_eq_self]
  intro a ha
  unfold FdaNdc.cleanNdc at ha
  have hp := List.of_mem_filter ha
  simp only [Bool.not_eq_true', Bool.or_eq_false_iff] at hp
  simp only [bne_iff_ne, ne_eq, decide_eq_true_eq]
  exact of_decide_eq_false hp.1

/-! ## Claims -/

/-- C1: the spec's liquid-conversion scenario fails on the code.  For the SIG
"Take 1 teaspoon by mouth twice daily" with daysSupply = 10 the parser maps
the unit token "teaspoon" to the unit *name* "ml" (table entry
`teaspoon → ml`) while leaving the dose value 1 unchanged, so the calculator
sees dose 1 "ml", skips the liquid conversion, and returns 20 ml — not the
claimed 5 × 2 × 10 = 100 ml.  The 5 ml/teaspoon factor of
`convertToMilliliters` (third conjunct) is unreachable on this path. -/
theorem c1_teaspoon_pipeline_divergence :
    SigParser.parseSig "Take 1 teaspoon by mouth twice daily" =
      { dose := some (.fin 1), doseUnit := some "ml",
        frequencyPerDay := some (.fin 2), route := some "oral",
        dosageForm := some .liquid } ∧
    QuantityMath.calculateQuantity
      (some (SigParser.parseSig "Take 1 teaspoon by mouth twice daily"))
      (.fin 10) = some { quantityValue := 20, quantityUnit := "ml" } ∧
    QuantityMath.convertToMilliliters 1 "teaspoon" = 5 :=
  ⟨rfl, by with_unfolding_all rfl, by with_unfolding_all rfl⟩

/-- A concrete candidate used by the C2 counterexample: active, and without
any `matchScore` annotation. -/
def plainCandidate : NdcCandidate :=
  { ndc := "00000-0000-00", productName := "Example", active := true }

/-- C2 counterexample: `rankNdcCandidates` does *not* annotate the returned
candidates with a `matchScore` — on a one-element list it returns the
candidate unchanged with `matchScore = none` (the claim requires a
`matchScore` in [0,1] on every returned candidate). -/
theorem c2_rankAll_matchScore_counterexample :
    NdcSelect.rankNdcCandidates [plainCandidate] none none = [plainCandidate] ∧
    (NdcSelect.rankNdcCandidates [plainCandidate] none none).all
      (fun c => c.matchScore.isSome) = false := by
  refine ⟨by with_unfolding_all rfl, by with_unfolding_all rfl⟩

/-- C2 (amended): for every non-empty candidate list, `rankNdcCandidates`
returns a permutation of the full list — each candidate unchanged (scoring
metadata stripped, `matchScore` not annotated) — in which every adjacent
pair is ordered by descending total score beyond the 0.001 tolerance, with
ties (score difference ≤ 0.001) broken by active status only. -/
theorem c2_rankAll_sorted_permutation (cands : List NdcCandidate)
    (sig : Option NormalizedSig) (ds : Option JsNum) (h : cands ≠ []) :
    (NdcSelect.rankNdcCandidates cands sig ds).Perm cands ∧
    List.Chain' (fun a b =>
      (NdcSelect.scoreNdcCandidate b sig ds).score ≤
        (NdcSelect.scoreNdcCandidate a sig ds).score + 0.001 ∧
      (|(NdcSelect.scoreNdcCandidate a sig ds).score -
          (NdcSelect.scoreNdcCandidate b sig ds).score| ≤ 0.001 →
        b.active = true → a.active = true))
      (NdcSelect.rankNdcCandidates cands sig ds) := by
  obtain ⟨x, xs, rfl⟩ := List.exists_cons_of_ne_nil h
  have hre : NdcSelect.rankNdcCandidates (x :: xs) sig ds =
      (NdcSelect.sortRanked []
        ((x :: xs).map (fun c => NdcSelect.scoreNdcCandidate c sig ds))).map (·.cand) := rfl
  have hperm₀ : (NdcSelect.sortRanked []
      ((x :: xs).map (fun c => NdcSelect.scoreNdcCandidate c sig ds))).Perm
      ((x :: xs).map (fun c => NdcSelect.scoreNdcCandidate c sig ds)) :=
    sortRanked_perm _ []
  constructor
  · rw [hre]
    refine (hperm₀.map (·.cand)).trans ?_
    rw [List.map_map]
    have hid : ∀ c ∈ (x :: xs),
        ((·.cand) ∘ (fun c => NdcSelect.scoreNdcCandidate c sig ds)) c = id c :=
      fun c _ => rfl
    rw [List.map_congr_left hid, List.map_id]
  · rw [hre]
    rw [List.chain'_map]
    have hchain : List.Chain' rankAdjOk (NdcSelect.sortRanked []
        ((x :: xs).map (fun c => NdcSelect.scoreNdcCandidate c sig ds))) :=
      chain'_sortRanked _ [] List.chain'_nil
    have hmemInv : ∀ sa ∈ NdcSelect.sortRanked []
        ((x :: xs).map (fun c => NdcSelect.scoreNdcCandidate c sig ds)),
        NdcSelect.scoreNdcCandidate sa.cand sig ds = sa := by
      intro sa hsa
      have hmem := (hperm₀.mem_iff).mp hsa
      obtain ⟨c, _, rfl⟩ := List.mem_map.mp hmem
      rfl
    refine chain'_transfer hchain hmemInv ?_
    intro a b ha hb hr
    have hsound := rankBefore_false_sound (hr : NdcSelect.rankBefore b a = false)
    rw [ha, hb]
    exact hsound

/-- An active demo candidate for the C2 witness. -/
def activeCandidate : NdcCandidate :=
  { ndc := "00000-0000-01", productName := "A", active := true }

/-- An inactive demo candidate for the C2 witness. -/
def inactiveCandidate : NdcCandidate :=
  { ndc := "00000-0000-02", productName := "B", active := false }

/-- C2 witness: the amended theorem applied to a concrete two-element list. -/
theorem c2_rankAll_witness :
    (NdcSelect.rankNdcCandidates [inactiveCandidate, activeCandidate] none none).Perm
      [inactiveCandidate, activeCandidate] ∧
    NdcSelect.rankNdcCandidates [inactiveCandidate, activeCandidate] none none =
      [activeCandidate, inactiveCandidate] :=
  ⟨(c2_rankAll_sorted_permutation [inactiveCandidate, activeCandidate] none none
      (by simp)).1,
   by with_unfolding_all rfl⟩

/-- C3: `calculateQuantity` returns a non-null result exactly when the SIG is
non-null with `dose`, `doseUnit`, `frequencyPerDay` present and `dose`,
`frequencyPerDay`, `daysSupply` finite and strictly positive; in every other
case it returns null — in particular for a null SIG and for a SIG missing
its frequency. -/
theorem c3_calculateQuantity_null_iff :
    (∀ (sig : Option NormalizedSig) (daysSupply : JsNum),
      (QuantityMath.calculateQuantity sig daysSupply).isSome = true ↔
        ∃ s dq fq dsq, sig = some s ∧
          s.dose = some (JsNum.fin dq) ∧ s.doseUnit.isSome = true ∧
          s.frequencyPerDay = some (JsNum.fin fq) ∧ daysSupply = JsNum.fin dsq ∧
          0 < dq ∧ 0 < fq ∧ 0 < dsq) ∧
    QuantityMath.calculateQuantity none (JsNum.fin 30) = none ∧
    QuantityMath.calculateQuantity
      (some { dose := some (JsNum.fin 1), doseUnit := some "tablet" })
      (JsNum.fin 30) = none := by
  refine ⟨?_, rfl, rfl⟩
  intro sig daysSupply
  cases sig with
  | none => simp [QuantityMath.calculateQuantity]
  | some s =>
    obtain ⟨rx, nm, st, fm, dose, du, fq, rt, df⟩ := s
    rcases dose with _ | (_ | _ | _ | d) <;>
    rcases du with _ | u <;>
    rcases fq with _ | (_ | _ | _ | f) <;>
    rcases daysSupply with _ | _ | _ | q <;>
      simp only [QuantityMath.calculateQuantity, JsNum.toQ, Option.isSome_none,
        Option.isSome_some, apply_ite Option.isSome, Option.some.injEq,
        NormalizedSig.mk.injEq, JsNum.fin.injEq, reduceCtorEq, false_and, and_false,
        exists_false, exists_and_left, exists_eq_left, iff_false, exists_const,
        Bool.false_eq_true, exists_eq_left', and_true, true_and, exists_eq_right,
        exists_eq_right', not_false_iff, iff_true, false_iff, not_exists, not_and] <;>
      try simp

/-- C4: `detectOverfillUnderfill` returns no warnings when the package size
is null or the normalized units differ; otherwise it emits an overfill
warning exactly when the quantity strictly exceeds 105% of the package size
and an underfill warning exactly when it is strictly below 95%. -/
theorem c4_overfill_underfill_thresholds (q : ℚ) (u : String)
    (pkg : Option PackageSizeVal) :
    (pkg = none → QuantityMath.detectOverfillUnderfill q u pkg = []) ∧
    (∀ ps, pkg = some ps →
      (QuantityMath.normalizeUnit u ≠ QuantityMath.normalizeUnit ps.packageUnit →
        QuantityMath.detectOverfillUnderfill q u pkg = []) ∧
      (QuantityMath.normalizeUnit u = QuantityMath.normalizeUnit ps.packageUnit →
        ((∃ w ∈ QuantityMath.detectOverfillUnderfill q u pkg,
            w.type = WarningType.overfill) ↔ q > ps.packageSize * 1.05) ∧
        ((∃ w ∈ QuantityMath.detectOverfillUnderfill q u pkg,
            w.type = WarningType.underfill) ↔ q < ps.packageSize * 0.95))) := by
  constructor
  · rintro rfl
    rfl
  · rintro ps rfl
    constructor
    · intro hne
      unfold QuantityMath.detectOverfillUnderfill
      dsimp only
      rw [if_pos hne]
    · intro heq
      by_cases hov : q > ps.packageSize * 1.05 <;>
        by_cases hun : q < ps.packageSize * 0.95 <;>
          simp [QuantityMath.detectOverfillUnderfill, heq, hov, hun]

/-- C4 witness: package size 30 — quantity 31.5 and 28.5 produce no warning
(thresholds strict), 31.6 an overfill warning, 28.4 an underfill warning. -/
theorem c4_overfill_underfill_witness :
    QuantityMath.detectOverfillUnderfill 31.5 "tablet" (some ⟨30, "tablet"⟩) = [] ∧
    (∃ w ∈ QuantityMath.detectOverfillUnderfill 31.6 "tablet" (some ⟨30, "tablet"⟩),
      w.type = WarningType.overfill) ∧
    (∃ w ∈ QuantityMath.detectOverfillUnderfill 28.4 "tablet" (some ⟨30, "tablet"⟩),
      w.type = WarningType.underfill) ∧
    QuantityMath.detectOverfillUnderfill 28.5 "tablet" (some ⟨30, "tablet"⟩) = [] := by
  refine ⟨by with_unfolding_all rfl, ?_, ?_, by with_unfolding_all rfl⟩
  · exact (((c4_overfill_underfill_thresholds 31.6 "tablet"
      (some ⟨30, "tablet"⟩)).2 ⟨30, "tablet"⟩ rfl).2 rfl).1.mpr (by norm_num)
  · exact (((c4_overfill_underfill_thresholds 28.4 "tablet"
      (some ⟨30, "tablet"⟩)).2 ⟨30, "tablet"⟩ rfl).2 rfl).2.mpr (by norm_num)

/-- C5: `calculateMultiPack` returns null when the package size is missing,
the normalized units mismatch, or the package size is not positive;
otherwise it returns `floor(quantity / size)` packages, the JS `%` remainder,
and `isMultiPack` true exactly when at least one full package is needed. -/
theorem c5_multiPack_formula (q : ℚ) (u : String) (pkg : Option PackageSizeVal) :
    (pkg = none → QuantityMath.calculateMultiPack q u pkg = none) ∧
    (∀ ps, pkg = some ps →
      ((QuantityMath.normalizeUnit u ≠ QuantityMath.normalizeUnit ps.packageUnit ∨
          ps.packageSize ≤ 0) → QuantityMath.calculateMultiPack q u pkg = none) ∧
      (QuantityMath.normalizeUnit u = QuantityMath.normalizeUnit ps.packageUnit →
        0 < ps.packageSize →
        ∃ mp, QuantityMath.calculateMultiPack q u pkg = some mp ∧
          mp.packageCount = ⌊q / ps.packageSize⌋ ∧
          mp.remainder = QuantityMath.jsMod q ps.packageSize ∧
          (mp.isMultiPack = true ↔ 1 ≤ mp.packageCount))) := by
  constructor
  · rintro rfl
    rfl
  · rintro ps rfl
    constructor
    · intro hbad
      unfold QuantityMath.calculateMultiPack
      dsimp only
      rcases hbad with hne | hle
      · rw [if_pos hne]
      · by_cases hne : QuantityMath.normalizeUnit u ≠ QuantityMath.normalizeUnit ps.packageUnit
        · rw [if_pos hne]
        · rw [if_neg hne, if_pos hle]
    · intro heq hpos
      refine ⟨{ packageCount := ⌊q / ps.packageSize⌋,
                remainder := QuantityMath.jsMod q ps.packageSize,
                isMultiPack := decide (1 ≤ ⌊q / ps.packageSize⌋) }, ?_, rfl, rfl, by simp⟩
      unfold QuantityMath.calculateMultiPack
      dsimp only
      rw [if_neg (fun hh => hh heq), if_neg (by linarith)]

/-- C5 witness: quantity 360 against package size 100 gives 3 packages with
remainder 60, and `isMultiPack` is true. -/
theorem c5_multiPack_witness :
    ∃ mp, QuantityMath.calculateMultiPack 360 "tablet" (some ⟨100, "tablet"⟩) = some mp ∧
      mp.packageCount = 3 ∧ mp.remainder = 60 ∧ mp.isMultiPack = true := by
  obtain ⟨mp, heq, h1, h2, h3⟩ :=
    ((c5_multiPack_formula 360 "tablet" (some ⟨100, "tablet"⟩)).2
      ⟨100, "tablet"⟩ rfl).2 rfl (by norm_num)
  have hfloor : (⌊(360 : ℚ) / 100⌋ : ℤ) = 3 := by norm_num
  refine ⟨mp, heq, by rw [h1, hfloor], ?_, h3.mpr (by rw [h1, hfloor]; norm_num)⟩
  rw [h2]
  unfold QuantityMath.jsMod QuantityMath.ratTrunc
  norm_num

/-- C6 counterexample: a raw package record whose code cleans to 5 characters
yields a candidate whose `ndc` is the cleaned code as-is (`"12345"`), which
is not in the 11-digit `XXXXX-XXXX-XX` form — refuting the claim that no
candidate with a non-conforming `ndc` is ever produced. -/
theorem c6_ndc_format_counterexample :
    FdaNdc.parseFdaResponse (fun _ => true) [{ product_ndc := some "12345" }] =
      [{ ndc := "12345", productName := "Unknown Product", active := true }] ∧
    FdaNdc.isNdc11Format "12345" = false :=
  ⟨rfl, rfl⟩

/-- C6 (amended): `normalizeNdc` pads a 10-character cleaned code with a
leading zero and splits 5-4-2, splits an 11-character cleaned code 5-4-2
(yielding the `XXXXX-XXXX-XX` form whenever the cleaned code is all digits,
and preserving the digits), returns a cleaned code of any other non-zero
length as-is — so a candidate derived from such a record can carry an `ndc`
not in the 11-digit form — and is null for an empty cleaned code. -/
theorem c6_normalizeNdc_characterization (s : String) (h : s ≠ "") :
    ((FdaNdc.cleanNdc s).length = 10 → ∃ n, FdaNdc.normalizeNdc (some s) = some n ∧
      n.data.filter (fun c => c != '-') = '0' :: FdaNdc.cleanNdc s ∧
      ((FdaNdc.cleanNdc s).all Char.isDigit = true → FdaNdc.isNdc11Format n = true)) ∧
    ((FdaNdc.cleanNdc s).length = 11 → ∃ n, FdaNdc.normalizeNdc (some s) = some n ∧
      n.data.filter (fun c => c != '-') = FdaNdc.cleanNdc s ∧
      ((FdaNdc.cleanNdc s).all Char.isDigit = true → FdaNdc.isNdc11Format n = true)) ∧
    ((FdaNdc.cleanNdc s).length ≠ 0 → (FdaNdc.cleanNdc s).length ≠ 10 →
      (FdaNdc.cleanNdc s).length ≠ 11 →
      FdaNdc.normalizeNdc (some s) = some (String.mk (FdaNdc.cleanNdc s))) ∧
    ((FdaNdc.cleanNdc s).length = 0 → FdaNdc.normalizeNdc (some s) = none) := by
  have hunf : FdaNdc.normalizeNdc (some s) =
      (if (FdaNdc.cleanNdc s).length = 10 then
        some (String.mk (('0' :: FdaNdc.cleanNdc s).take 5 ++
          '-' :: ((('0' :: FdaNdc.cleanNdc s).drop 5).take 4) ++
          '-' :: ('0' :: FdaNdc.cleanNdc s).drop 9))
      else if (FdaNdc.cleanNdc s).length = 11 then
        some (String.mk ((FdaNdc.cleanNdc s).take 5 ++
          '-' :: (((FdaNdc.cleanNdc s).drop 5).take 4) ++
          '-' :: (FdaNdc.cleanNdc s).drop 9))
      else if (FdaNdc.cleanNdc s).length > 0 then some (String.mk (FdaNdc.cleanNdc s))
      else none) := by
    unfold FdaNdc.normalizeNdc
    dsimp only
    rw [if_neg h]
  refine ⟨?_, ?_, ?_, ?_⟩
  · intro h10
    rw [hunf, if_pos h10]
    refine ⟨_, rfl, ?_, ?_⟩
    · show (('0' :: FdaNdc.cleanNdc s).take 5 ++ _ ++ _).filter _ = _
      rw [ndcDigits_of_ten _ h10]
      show ('0' :: FdaNdc.cleanNdc s).filter (fun c => c != '-') = _
      rw [List.filter_cons]
      simp only [cleanNdc_no_dash]
      norm_num
      decide
    · intro hd
      exact ndcFormat_of_ten _ h10 hd
  · intro h11
    rw [hunf, if_neg (by omega), if_pos h11]
    refine ⟨_, rfl, ?_, ?_⟩
    · show ((FdaNdc.cleanNdc s).take 5 ++ _ ++ _).filter _ = _
      rw [ndcDigits_of_eleven _ h11]
      exact cleanNdc_no_dash s
    · intro hd
      exact ndcFormat_of_eleven _ h11 hd
  · intro h0 h10 h11
    rw [hunf, if_neg h10, if_neg h11, if_pos (by omega)]
  · intro h0
    rw [hunf, if_neg (by omega), if_neg (by omega), if_neg (by omega)]

/-- C6 witness: the 10-digit raw code "1234567890" is zero-padded and dashed
into a valid `XXXXX-XXXX-XX` code. -/
theorem c6_normalizeNdc_witness :
    ∃ n, FdaNdc.normalizeNdc (some "1234567890") = some n ∧
      FdaNdc.isNdc11Format n = true ∧
      n.data.filter (fun c => c != '-') = '0' :: FdaNdc.cleanNdc "1234567890" := by
  obtain ⟨n, heq, hfil, hval⟩ :=
    (c6_normalizeNdc_characterization "1234567890" (by decide)).1 (by decide)
  exact ⟨n, heq, hval (by decide), hfil⟩

/-- C7: both `normalizeUnit` functions (the quantity module's and the SIG
parser's) are idempotent, and on a token absent from the synonym table each
returns the lower-cased, trimmed input unchanged. -/
theorem c7_normalizeUnit_idempotent (x : String) :
    (QuantityMath.normalizeUnit (QuantityMath.normalizeUnit x) =
        QuantityMath.normalizeUnit x ∧
      SigParser.normalizeUnit (SigParser.normalizeUnit x) =
        SigParser.normalizeUnit x) ∧
    (lookupStr QuantityMath.UNIT_NORMALIZATION (lowerTrim x) = none →
      QuantityMath.normalizeUnit x = lowerTrim x) ∧
    (lookupStr SigParser.UNIT_NORMALIZATION (lowerTrim x) = none →
      SigParser.normalizeUnit x = lowerTrim x) := by
  refine ⟨⟨?_, ?_⟩, ?_, ?_⟩
  · exact genNorm_idem _ quantityTable_stable x
  · exact genNorm_idem _ sigTable_stable x
  · intro h
    unfold QuantityMath.normalizeUnit
    simp only []
    rw [h]
    rfl
  · intro h
    unfold SigParser.normalizeUnit
    simp only []
    rw [h]
    rfl

/-- C7 witness: a token outside the table is returned lower-cased/trimmed,
and a known synonym reaches a fixed point after one application. -/
theorem c7_normalizeUnit_witness :
    QuantityMath.normalizeUnit "Foobar " = lowerTrim "Foobar " ∧
    SigParser.normalizeUnit "Foobar " = lowerTrim "Foobar " ∧
    QuantityMath.normalizeUnit (QuantityMath.normalizeUnit "TABS") =
      QuantityMath.normalizeUnit "TABS" :=
  ⟨(c7_normalizeUnit_idempotent "Foobar ").2.1 (by decide),
   (c7_normalizeUnit_idempotent "Foobar ").2.2 (by decide),
   (c7_normalizeUnit_idempotent "TABS").1.1⟩

/-- C8: `parseSig` is a total function (it is defined for every string by
structural recursion, so it terminates and never throws), and on empty or
whitespace-only input — any string that trims to empty — it returns the
fully empty result. -/
theorem c8_parseSig_total_empty (s : String) (h : jsTrim s = "") :
    SigParser.parseSig s = {} := by
  unfold SigParser.parseSig
  rw [if_pos h]

/-- C8 witness: the whitespace-only string parses to the empty result. -/
theorem c8_parseSig_witness : jsTrim "   " = "" ∧ SigParser.parseSig "   " = {} :=
  ⟨by decide, c8_parseSig_total_empty "   " (by decide)⟩

/-- C9: the two embedded revisions of `calculateQuantity` agree on every SIG
whose `dosageForm` is undefined (and on a null SIG), for every daysSupply. -/
theorem c9_revisions_agree (sig : Option NormalizedSig) (d : JsNum)
    (h : ∀ s, sig = some s → s.dosageForm = none) :
    QuantityMath.calculateQuantity sig d = QuantityMathV1.calculateQuantity sig d := by
  cases sig with
  | none => rfl
  | some s =>
    obtain ⟨rx, nm, st, fm, dose, du, fq, rt, df⟩ := s
    have hs : df = none := h _ rfl
    subst hs
    rcases dose with _ | (_ | _ | _ | dd) <;>
    rcases du with _ | u <;>
    rcases fq with _ | (_ | _ | _ | f) <;>
    rcases d with _ | _ | _ | q <;> rfl

/-- C9 witness: both revisions give the same result on a concrete SIG with
no dosage form. -/
theorem c9_revisions_agree_witness :
    QuantityMath.calculateQuantity
        (some { dose := some (.fin 2), doseUnit := some "tablet",
                frequencyPerDay := some (.fin 3) }) (.fin 30) =
      QuantityMathV1.calculateQuantity
        (some { dose := some (.fin 2), doseUnit := some "tablet",
                frequencyPerDay := some (.fin 3) }) (.fin 30) :=
  c9_revisions_agree _ _ (fun s hs => by cases hs; rfl)

/-- C10: for every candidate, SIG (including null) and daysSupply (including
undefined), the four sub-scores of `scoreNdcCandidate` lie in [0,1] — with
`packageMatch` never below 0.2 — and the total score equals the weighted sum
0.3·activeStatus + 0.4·packageMatch + 0.15·strengthMatch + 0.15·unitMatch,
which therefore also lies in [0,1]. -/
theorem c10_score_bounds_weighted_sum (c : NdcCandidate)
    (sig : Option NormalizedSig) (ds : Option JsNum) :
    0 ≤ (NdcSelect.scoreNdcCandidate c sig ds).scoreBreakdown.activeStatus ∧
    (NdcSelect.scoreNdcCandidate c sig ds).scoreBreakdown.activeStatus ≤ 1 ∧
    0.2 ≤ (NdcSelect.scoreNdcCandidate c sig ds).scoreBreakdown.packageMatch ∧
    (NdcSelect.scoreNdcCandidate c sig ds).scoreBreakdown.packageMatch ≤ 1 ∧
    0 ≤ (NdcSelect.scoreNdcCandidate c sig ds).scoreBreakdown.strengthMatch ∧
    (NdcSelect.scoreNdcCandidate c sig ds).scoreBreakdown.strengthMatch ≤ 1 ∧
    0 ≤ (NdcSelect.scoreNdcCandidate c sig ds).scoreBreakdown.unitMatch ∧
    (NdcSelect.scoreNdcCandidate c sig ds).scoreBreakdown.unitMatch ≤ 1 ∧
    (NdcSelect.scoreNdcCandidate c sig ds).score =
      0.3 * (NdcSelect.scoreNdcCandidate c sig ds).scoreBreakdown.activeStatus +
      0.4 * (NdcSelect.scoreNdcCandidate c sig ds).scoreBreakdown.packageMatch +
      0.15 * (NdcSelect.scoreNdcCandidate c sig ds).scoreBreakdown.strengthMatch +
      0.15 * (NdcSelect.scoreNdcCandidate c sig ds).scoreBreakdown.unitMatch ∧
    0 ≤ (NdcSelect.scoreNdcCandidate c sig ds).score ∧
    (NdcSelect.scoreNdcCandidate c sig ds).score ≤ 1 := by
  have hA : (NdcSelect.scoreNdcCandidate c sig ds).scoreBreakdown.activeStatus =
      (if c.active then (1 : ℚ) else 0) := rfl
  have hP : (NdcSelect.scoreNdcCandidate c sig ds).scoreBreakdown.packageMatch =
      NdcSelect.packageMatchOf c sig ds := rfl
  have hS : (NdcSelect.scoreNdcCandidate c sig ds).scoreBreakdown.strengthMatch =
      NdcSelect.strengthMatchOf c sig := rfl
  have hU : (NdcSelect.scoreNdcCandidate c sig ds).scoreBreakdown.unitMatch =
      NdcSelect.unitMatchOf c sig := rfl
  have hT : (NdcSelect.scoreNdcCandidate c sig ds).score =
      (if c.active then (1 : ℚ) else 0) * 0.3 + NdcSelect.packageMatchOf c sig ds * 0.4 +
      NdcSelect.strengthMatchOf c sig * 0.15 + NdcSelect.unitMatchOf c sig * 0.15 := rfl
  have hA01 : (0 : ℚ) ≤ (if c.active then (1 : ℚ) else 0) ∧
      (if c.active then (1 : ℚ) else 0) ≤ 1 := by split <;> norm_num
  have hPb := packageMatchOf_bounds c sig ds
  have hSb := strengthMatchOf_bounds c sig
  have hUb := unitMatchOf_bounds c sig
  rw [hA, hP, hS, hU, hT]
  refine ⟨hA01.1, hA01.2, hPb.1, hPb.2, hSb.1, hSb.2, hUb.1, hUb.2, by ring, ?_, ?_⟩
  · nlinarith [hA01.1, hPb.1, hSb.1, hUb.1]
  · nlinarith [hA01.2, hPb.2, hSb.2, hUb.2, hA01.1, hPb.1, hSb.1, hUb.1]
